import Mathlib

/-!
Verification of the dynamic-schema data layer in `core/models.py`.

The Python source is shallowly embedded: each relevant function is translated
into an executable Lean definition over `List Char` / `Nat`, machine words are
`Nat` reduced mod 2^32 where the md5 arithmetic of the source wraps, database and
ORM effects are modelled by explicit state passing, and exceptions by
`Except`.  Python string primitives (`str.split`, `str.replace`, `str.strip`,
`str.lower`, slicing, `", ".join`, `sorted`) are re-implemented here over
character lists so that every definition evaluates by kernel reduction.
All string inputs relevant to the claims are ASCII; `strBytes` models
the Python `encode("ascii")` codec on that domain.
-/

/-! ## Python-style string primitives -/

/-- Lexicographic comparison of character lists by code point, as Python
compares `str` values (used to model `sorted`). -/
def strLeB : List Char → List Char → Bool
  | [], _ => true
  | _ :: _, [] => false
  | a :: as, b :: bs => if a = b then strLeB as bs else decide (a < b)

/-- Python `s <= t` on strings. -/
def pyLe (s t : String) : Prop := strLeB s.data t.data = true

instance : DecidableRel pyLe := fun _ _ => inferInstanceAs (Decidable (_ = true))

/-- Python `sorted` on a list of strings. -/
def pySort (l : List String) : List String := List.insertionSort pyLe l

/-- Does `pat` occur at the head of `l`? -/
def charsStart : List Char → List Char → Bool
  | [], _ => true
  | _ :: _, [] => false
  | p :: ps, c :: cs => p = c && charsStart ps cs

/-- One fuel-indexed pass of Python `str.replace` (all occurrences,
left to right, non-overlapping); `fuel ≥ l.length` suffices for the
non-empty patterns used in the source. -/
def replChars : Nat → List Char → List Char → List Char → List Char
  | 0, _, _, l => l
  | _ + 1, _, _, [] => []
  | fuel + 1, pat, repl, c :: cs =>
      if charsStart pat (c :: cs) then
        repl ++ replChars fuel pat repl ((c :: cs).drop pat.length)
      else
        c :: replChars fuel pat repl cs

/-- Python `s.replace(pat, repl)`. -/
def pyReplace (s pat repl : String) : String :=
  ⟨replChars s.data.length pat.data repl.data s.data⟩

/-- Python `s[:n]` (slicing by characters). -/
def pyTakeStr (n : Nat) (s : String) : String := ⟨s.data.take n⟩

/-- Python `s[-n:]` for `n ≥ 1` (the last `n` characters, or all of `s`
when it is shorter than `n`). -/
def pyTakeRight (n : Nat) (s : String) : String := ⟨s.data.drop (s.data.length - n)⟩

/-- Python `s.strip()` restricted to whitespace. -/
def pyStrip (s : String) : String :=
  ⟨((s.data.dropWhile Char.isWhitespace).reverse.dropWhile Char.isWhitespace).reverse⟩

/-- ASCII lower-casing of one character (Python `str.lower` on the ASCII
domain used by the source). -/
def lowerChar (c : Char) : Char :=
  if 65 ≤ c.toNat ∧ c.toNat ≤ 90 then Char.ofNat (c.toNat + 32) else c

/-- ASCII upper-casing of one character. -/
def upperChar (c : Char) : Char :=
  if 97 ≤ c.toNat ∧ c.toNat ≤ 122 then Char.ofNat (c.toNat - 32) else c

/-- Python `s.lower()` (ASCII domain). -/
def pyLower (s : String) : String := ⟨s.data.map lowerChar⟩

/-- Python `s.capitalize()`: first character upper-cased, the rest
lower-cased (ASCII domain). -/
def capitalizePy (s : String) : String :=
  match s.data with
  | [] => ""
  | c :: cs => ⟨upperChar c :: cs.map lowerChar⟩

/-- Split a character list at every occurrence of `sep`, keeping empty
pieces, as Python `s.split(sep)` for a one-character separator. -/
def splitOnCharList (sep : Char) : List Char → List (List Char)
  | [] => [[]]
  | c :: cs =>
      match splitOnCharList sep cs with
      | [] => [[]]
      | h :: t => if c = sep then [] :: h :: t else (c :: h) :: t

/-- Python `s.split(",")`. -/
def pySplitComma (s : String) : List String :=
  (splitOnCharList ',' s.data).map (fun l => (⟨l⟩ : String))

/-- Split a character list at whitespace, keeping empty pieces. -/
def splitWsList : List Char → List (List Char)
  | [] => [[]]
  | c :: cs =>
      match splitWsList cs with
      | [] => [[]]
      | h :: t => if c.isWhitespace then [] :: h :: t else (c :: h) :: t

/-- Python `s.split()` with no argument: whitespace tokens, empties
dropped. -/
def pyWords (s : String) : List String :=
  ((splitWsList s.data).filter (· ≠ [])).map (fun l => (⟨l⟩ : String))

/-- Concatenate pieces with a separator between them. -/
def joinWith (sep : List Char) : List (List Char) → List Char
  | [] => []
  | [x] => x
  | x :: y :: rest => x ++ sep ++ joinWith sep (y :: rest)

/-- Python `sep.join(parts)`. -/
def pyJoin (sep : String) (parts : List String) : String :=
  ⟨joinWith sep.data (parts.map (·.data))⟩

/-- Concatenation of a list of strings (Python `"".join`). -/
def pyConcat (parts : List String) : String := ⟨(parts.map (·.data)).flatten⟩

/-! ## md5 (RFC 1321), words as `Nat` reduced mod 2^32 -/

/-- Reduction of a `Nat` to a 32-bit machine word value. -/
def m32 (n : Nat) : Nat := n % 4294967296

/-- 32-bit left rotation (`x` assumed `< 2^32`). -/
def rotl32 (x s : Nat) : Nat := (m32 (x <<< s)) ||| (x >>> (32 - s))

/-- The 64 md5 round constants `floor(2^32 * abs(sin(i+1)))`. -/
def md5K : List Nat :=
  [0xd76aa478, 0xe8c7b756, 0x242070db, 0xc1bdceee, 0xf57c0faf, 0x4787c62a, 0xa8304613, 0xfd469501,
   0x698098d8, 0x8b44f7af, 0xffff5bb1, 0x895cd7be, 0x6b901122, 0xfd987193, 0xa679438e, 0x49b40821,
   0xf61e2562, 0xc040b340, 0x265e5a51, 0xe9b6c7aa, 0xd62f105d, 0x02441453, 0xd8a1e681, 0xe7d3fbc8,
   0x21e1cde6, 0xc33707d6, 0xf4d50d87, 0x455a14ed, 0xa9e3e905, 0xfcefa3f8, 0x676f02d9, 0x8d2a4c8a,
   0xfffa3942, 0x8771f681, 0x6d9d6122, 0xfde5380c, 0xa4beea44, 0x4bdecfa9, 0xf6bb4b60, 0xbebfbc70,
   0x289b7ec6, 0xeaa127fa, 0xd4ef3085, 0x04881d05, 0xd9d4d039, 0xe6db99e5, 0x1fa27cf8, 0xc4ac5665,
   0xf4292244, 0x432aff97, 0xab9423a7, 0xfc93a039, 0x655b59c3, 0x8f0ccc92, 0xffeff47d, 0x85845dd1,
   0x6fa87e4f, 0xfe2ce6e0, 0xa3014314, 0x4e0811a1, 0xf7537e82, 0xbd3af235, 0x2ad7d2bb, 0xeb86d391]

/-- The 64 md5 per-round left-rotation amounts. -/
def md5S : List Nat :=
  [7, 12, 17, 22, 7, 12, 17, 22, 7, 12, 17, 22, 7, 12, 17, 22,
   5, 9, 14, 20, 5, 9, 14, 20, 5, 9, 14, 20, 5, 9, 14, 20,
   4, 11, 16, 23, 4, 11, 16, 23, 4, 11, 16, 23, 4, 11, 16, 23,
   6, 10, 15, 21, 6, 10, 15, 21, 6, 10, 15, 21, 6, 10, 15, 21]

/-- md5 round mixing function, rounds 0–15. -/
def md5F (b c d : Nat) : Nat := (b &&& c) ||| ((b ^^^ 0xffffffff) &&& d)

/-- md5 round mixing function, rounds 16–31. -/
def md5G (b c d : Nat) : Nat := (d &&& b) ||| ((d ^^^ 0xffffffff) &&& c)

/-- md5 round mixing function, rounds 32–47. -/
def md5H (b c d : Nat) : Nat := b ^^^ c ^^^ d

/-- md5 round mixing function, rounds 48–63. -/
def md5I (b c d : Nat) : Nat := c ^^^ (b ||| (d ^^^ 0xffffffff))

/-- One md5 round on the state `(a, b, c, d)` with message words `M`. -/
def md5Step (M : List Nat) (st : Nat × Nat × Nat × Nat) (i : Nat) : Nat × Nat × Nat × Nat :=
  let a := st.1; let b := st.2.1; let c := st.2.2.1; let d := st.2.2.2
  let fg : Nat × Nat :=
    if i < 16 then (md5F b c d, i)
    else if i < 32 then (md5G b c d, (5 * i + 1) % 16)
    else if i < 48 then (md5H b c d, (3 * i + 5) % 16)
    else (md5I b c d, (7 * i) % 16)
  let tmp := m32 (a + fg.1 + md5K.getD i 0 + M.getD fg.2 0)
  (d, m32 (b + rotl32 tmp (md5S.getD i 0)), b, c)

/-- Little-endian decoding of a 64-byte chunk into 16 message words. -/
def wordsOfChunk : List Nat → List Nat
  | b0 :: b1 :: b2 :: b3 :: rest =>
      (b0 + 256 * b1 + 65536 * b2 + 16777216 * b3) :: wordsOfChunk rest
  | _ => []

/-- md5 compression of one 64-byte chunk into the running state. -/
def md5Compress (st : Nat × Nat × Nat × Nat) (chunk : List Nat) : Nat × Nat × Nat × Nat :=
  let M := wordsOfChunk chunk
  let r := (List.range 64).foldl (md5Step M) st
  (m32 (st.1 + r.1), m32 (st.2.1 + r.2.1), m32 (st.2.2.1 + r.2.2.1), m32 (st.2.2.2 + r.2.2.2))

/-- Fuel-indexed split of a byte list into 64-byte chunks; fuel
`l.length` suffices. -/
def chunksAux : Nat → List Nat → List (List Nat)
  | 0, _ => []
  | _ + 1, [] => []
  | n + 1, l => l.take 64 :: chunksAux n (l.drop 64)

/-- 64-bit little-endian encoding of a length value. -/
def le64 (n : Nat) : List Nat :=
  [n % 256, n / 2 ^ 8 % 256, n / 2 ^ 16 % 256, n / 2 ^ 24 % 256,
   n / 2 ^ 32 % 256, n / 2 ^ 40 % 256, n / 2 ^ 48 % 256, n / 2 ^ 56 % 256]

/-- md5 padding: `0x80`, zeros to 56 mod 64, then the bit length. -/
def md5Pad (msg : List Nat) : List Nat :=
  msg ++ 128 :: List.replicate ((120 - (msg.length + 1) % 64) % 64) 0
      ++ le64 ((8 * msg.length) % 2 ^ 64)

/-- Little-endian serialization of one 32-bit word as 4 bytes. -/
def wordLE (w : Nat) : List Nat := [w % 256, w / 256 % 256, w / 65536 % 256, w / 16777216 % 256]

/-- The 16-byte md5 digest of a byte list. -/
def md5Bytes (msg : List Nat) : List Nat :=
  let padded := md5Pad msg
  let st := (chunksAux padded.length padded).foldl md5Compress
    (0x67452301, 0xefcdab89, 0x98badcfe, 0x10325476)
  wordLE st.1 ++ wordLE st.2.1 ++ wordLE st.2.2.1 ++ wordLE st.2.2.2

/-- One lowercase hex digit. -/
def hexChar (n : Nat) : Char := if n < 10 then Char.ofNat (48 + n) else Char.ofNat (87 + n)

/-- Lowercase hex rendering of a byte list, two digits per byte. -/
def bytesHex : List Nat → List Char
  | [] => []
  | b :: rest => hexChar (b / 16) :: hexChar (b % 16) :: bytesHex rest

/-- Python `s.encode("ascii")`, modelled on ASCII strings as the list of
code points. -/
def strBytes (s : String) : List Nat := s.data.map Char.toNat

/-- Python `hashlib.md5(s.encode("ascii")).hexdigest()`. -/
def md5hex (s : String) : String := ⟨bytesHex (md5Bytes (strBytes s))⟩

/-! ## Embedding of `core/models.py` -/

/-- Function `make_index_name` (models.py:85-88): hash the table name, index type
and sorted comma-joined fields, truncate the cleaned table name to 12
characters and keep the last 12 hex digits of the md5 digest. -/
def make_index_name (tablename index_type : String) (fields : List String) : String :=
  let idx_hash := md5hex (tablename ++ " " ++ index_type ++ " " ++ pyJoin ", " (pySort fields))
  let tb := pyTakeStr 12 (pyReplace (pyReplace tablename "data_" "") "-" "")
  "idx_" ++ tb ++ "_" ++ pyTakeStr 1 index_type ++ pyTakeRight 12 idx_hash

/-- The `Model.extra` attribute set by `Table.get_model`
(models.py:436-440). -/
structure ModelExtra where
  ordering : List String
  filtering : List String
  search : List String
deriving DecidableEq

/-- Kind of a derived index: `django_indexes.Index` (btree) or
`pg_indexes.GinIndex` (gin). -/
inductive IndexKind
  | btree
  | gin
deriving DecidableEq

/-- One index object as constructed in `Table.get_model`. -/
structure IndexSpec where
  name : String
  fields : List String
  kind : IndexKind
deriving DecidableEq

/-- The index list built by `Table.get_model` (models.py:414-428): a
composite ordering index when `ordering` is non-empty, one single-field
index per `filtering` entry except the sole ordering field, and a GIN
index over `search_data` when `search` is non-empty. -/
def model_indexes (name : String) (ordering filtering search : List String) : List IndexSpec :=
  let indexes : List IndexSpec :=
    if ordering ≠ [] then
      [⟨make_index_name name "order" ordering, ordering, IndexKind.btree⟩]
    else []
  let indexes :=
    if filtering ≠ [] then
      filtering.foldl (fun acc field_name =>
        if ordering = [field_name] then acc
        else acc ++ [⟨make_index_name name "filter" [field_name], [field_name], IndexKind.btree⟩])
        indexes
    else indexes
  if search ≠ [] then
    indexes ++ [⟨make_index_name name "search" ["search_data"], ["search_data"], IndexKind.gin⟩]
  else indexes

/-- Property `Table.db_table` (models.py:365-367):
`"data_{slug with dashes stripped}_{name with underscores stripped}"`. -/
def db_table (slug name : String) : String :=
  "data_" ++ pyReplace slug "-" "" ++ "_" ++ pyReplace name "_" ""

/-- The `Table` metadata row fields used by `get_model`.  The nullable
array columns `ordering`/`filtering`/`search` are `Option`s; `get_model`
normalizes them with `or []`. -/
structure TableMeta where
  id : Nat
  slug : String
  name : String
  ordering : Option (List String)
  filtering : Option (List String)
  search : Option (List String)
  fieldNames : List String
deriving DecidableEq

/-- The synthesized record type produced by `Table.get_model`
(models.py:399-442): name, physical table, field names (plus the
implicit `search_data` vector), default ordering, derived indexes and
the `extra` surface. -/
structure DynModel where
  model_name : String
  table_db : String
  fieldNames : List String
  ordering : List String
  indexes : List IndexSpec
  extra : ModelExtra
deriving DecidableEq

/-- The model-construction body of `Table.get_model` (the part after the
cache check). -/
def synthesizeModel (t : TableMeta) : DynModel :=
  let name := t.slug ++ "-" ++ pyReplace t.name "_" "-"
  let model_name := pyConcat ((splitOnCharList '-' name.data).map (fun l => capitalizePy ⟨l⟩))
  let ordering := t.ordering.getD []
  let filtering := t.filtering.getD []
  let search := t.search.getD []
  { model_name := model_name
    table_db := db_table t.slug t.name
    fieldNames := t.fieldNames ++ ["search_data"]
    ordering := ordering
    indexes := model_indexes name ordering filtering search
    extra := ⟨ordering, filtering, search⟩ }

/-- The process-wide `DYNAMIC_MODEL_REGISTRY` dict, keyed by `Table.id`. -/
def Registry : Type := List (Nat × DynModel)

/-- Registry update `DYNAMIC_MODEL_REGISTRY[id] = m`. -/
def regSet (id : Nat) (m : DynModel) (reg : List (Nat × DynModel)) : List (Nat × DynModel) :=
  (id, m) :: reg.filter (fun p => p.1 ≠ id)

/-- Method `Table.get_model(cache)` (models.py:399-442): return the registered
model on a cache hit, otherwise synthesize, register and return. -/
def get_model (cache : Bool) (t : TableMeta) (reg : List (Nat × DynModel)) :
    DynModel × List (Nat × DynModel) :=
  match (if cache then List.lookup t.id reg else none) with
  | some m => (m, reg)
  | none =>
      let m := synthesizeModel t
      (m, regSet t.id m reg)

/-- A data row as seen by the search machinery: its `search_data`
tsvector column, `none` when SQL NULL, otherwise the list of lexemes. -/
structure Row where
  search_data : Option (List String)
deriving DecidableEq

/-- Python `search_query.split()` as used in
`DynamicModelQuerySet.search` (models.py:178). -/
def tokensOf (s : String) : List String := pyWords s

/-- The row predicate produced by `search` (models.py:180-188): the
conjunctive `SearchQuery` over the token set, matched against
`search_data`.  With no tokens the built query object is `None` and
`filter(search_data=None)` selects exactly the rows whose vector is SQL
NULL; with tokens, a NULL vector matches nothing. -/
def searchFilterB (tokens : List String) (r : Row) : Bool :=
  match tokens with
  | [] => r.search_data.isNone
  | _ :: _ =>
      match r.search_data with
      | none => false
      | some doc => tokens.all (fun t => doc.contains t)

/-- The queryset state threaded through `DynamicModelQuerySet`: the
declared `extra` surface of the model, the surviving rows, and the accumulated
ordering clauses (`query.add_ordering` appends to this list). -/
structure QSState where
  extra : ModelExtra
  rows : List Row
  ordering : List String
deriving DecidableEq

/-- Method `DynamicModelQuerySet.search` (models.py:174-192): when the query
string and the declared search fields are both non-empty, filter rows by
the conjunctive token predicate and append `-search_rank` to the
ordering; otherwise return the queryset unchanged. -/
def searchQS (search_query : String) (st : QSState) : QSState :=
  if search_query ≠ "" ∧ st.extra.search ≠ [] then
    { st with
        rows := st.rows.filter (fun r => searchFilterB (tokensOf search_query).dedup r)
        ordering := st.ordering ++ ["-search_rank"] }
  else st

/-- Local `clean_allowed` of `apply_ordering` (models.py:203-204): the set of
declared ordering and filtering names, each with all dashes removed,
stripped and lower-cased. -/
def clean_allowed (extra : ModelExtra) : List String :=
  ((extra.ordering ++ extra.filtering).dedup).map
    (fun field => pyLower (pyStrip (pyReplace field "-" "")))

/-- Method `DynamicModelQuerySet.apply_ordering` (models.py:199-213) acting on
the accumulated ordering list `current`: keep the requested fields whose
dash-free form is among `clean_allowed`, appending them; if none
survive, append the declared model ordering instead (appending
nothing when that is empty too). -/
def apply_ordering (extra : ModelExtra) (current query : List String) : List String :=
  let ordering_query := query.filter (fun field => (clean_allowed extra).contains (pyReplace field "-" ""))
  if ordering_query ≠ [] then current ++ ordering_query
  else if extra.ordering ≠ [] then current ++ extra.ordering
  else current

/-- The `order-by` parse in `filter_by_querystring` (models.py:218-219):
split on commas, drop blank pieces, strip and lower-case the rest. -/
def parseOrderBy (raw : String) : List String :=
  ((pySplitComma raw).filter (fun field => pyStrip field ≠ "")).map
    (fun field => pyLower (pyStrip field))

/-- Operation `QueryDict.pop(key, default)`: the stored value list (or the
default) together with the mapping without that key. -/
def qdPop (k : String) (dflt : List String) (qs : List (String × List String)) :
    List String × List (String × List String) :=
  match List.lookup k qs with
  | some vs => (vs, qs.filter (fun p => p.1 ≠ k))
  | none => (dflt, qs)

/-- Operation `QueryDict.items()`: one `(key, last value)` pair per key. -/
def qdItems (qs : List (String × List String)) : List (String × String) :=
  qs.filterMap (fun p => p.2.getLast?.map (fun v => (p.1, v)))

/-- Method `DynamicModelQuerySet.filter_by_querystring` (models.py:215-228):
pop `order-by` and `search`, drop falsy filter values, then run search,
filters and ordering.  Returns the final queryset state together with
the filter dict handed to `apply_filters` (empty when it is not
invoked); the filter predicate itself lives in `core/filters.py`,
outside the source covered by this file. -/
def filter_by_querystring (st : QSState) (qs : List (String × List String)) :
    QSState × List (String × String) :=
  let p1 := qdPop "order-by" [""] qs
  let order_by := parseOrderBy (p1.1.headD "")
  let p2 := qdPop "search" [""] p1.2
  let search_query := p2.1.headD ""
  let query := (qdItems p2.2).filter (fun kv => kv.2 ≠ "")
  let st1 := if search_query ≠ "" then searchQS search_query st else st
  let st2 := { st1 with ordering := apply_ordering st1.extra st1.ordering order_by }
  (st2, query)

/-- The environment a `count()` call reads: the planner statistics row
for the table (`none` models any failure reading `pg_class`) and the
exact `COUNT(*)` answer. -/
structure CountEnv where
  plannerStats : Option Int
  exactCount : Int
deriving DecidableEq

/-- The per-queryset state of `count()`: whether the query has any
`WHERE` predicate, and the `_count` memo attribute. -/
structure CQuery where
  hasWhere : Bool
  cachedCount : Option Int
deriving DecidableEq

/-- Method `DynamicModelQuerySet.count` (models.py:230-247): return the memo if
set; otherwise on an unfiltered query try planner statistics and fall
back to the exact count on failure, and on a filtered query take the
exact count.  Returns the value, the updated queryset state, and the
number of underlying data accesses performed. -/
def countM (env : CountEnv) (q : CQuery) : Int × CQuery × Nat :=
  match q.cachedCount with
  | some c => (c, q, 0)
  | none =>
      if q.hasWhere = false then
        match env.plannerStats with
        | some n => (n, { q with cachedCount := some n }, 1)
        | none => (env.exactCount, { q with cachedCount := some env.exactCount }, 2)
      else
        (env.exactCount, { q with cachedCount := some env.exactCount }, 1)

/-- Outcome of `DynamicModelMixin.create_table`: the propagated result
of `schema_editor.create_model`, the index list the class carried while
the table was being created, and the index list left on the class
afterwards (the `finally` block restores it in every execution). -/
structure CreateResult (α : Type) where
  outcome : Except String Unit
  passedIndexes : List α
  finalIndexes : List α

/-- Method `DynamicModelMixin.create_table` (models.py:96-110): clear
`_meta.indexes` when `create_indexes` is false, run the schema editor,
re-raise any failure unchanged, and restore the saved index list in a
`finally` block. -/
def create_table {α : Type} (create_indexes : Bool)
    (createModel : List α → Except String Unit) (metaIndexes : List α) : CreateResult α :=
  let indexes := metaIndexes
  let current := if create_indexes = false then [] else metaIndexes
  { outcome := createModel current
    passedIndexes := current
    finalIndexes := indexes }

/-- A JSON scalar inside a `Field.options` mapping. -/
inductive OptVal
  | int (n : Int)
  | bool (b : Bool)
  | str (s : String)
deriving DecidableEq

/-- Python dict assignment `d[k] = v`: overwrite in place if the key
exists, else append the new entry. -/
def dictSet (d : List (String × OptVal)) (k : String) (v : OptVal) : List (String × OptVal) :=
  if d.any (fun p => p.1 = k) then d.map (fun p => if p.1 = k then (k, v) else p)
  else d ++ [(k, v)]

/-- The `Field` metadata row attributes read by `field_class`. -/
structure FieldMeta where
  null : Bool
  options : Option (List (String × OptVal))
  ftype : String
deriving DecidableEq

/-- Property `Field.field_class` (models.py:491-495): `kwargs = self.options or
{}` aliases the stored mapping exactly when it is present and
non-empty, so `kwargs["null"] = self.null` then mutates the stored
mapping in place; otherwise a fresh dict receives the key.  Returns the
kwargs passed to the field constructor and the field row afterwards. -/
def field_class_effect (f : FieldMeta) : List (String × OptVal) × FieldMeta :=
  match f.options with
  | none => (dictSet [] "null" (OptVal.bool f.null), f)
  | some d =>
      if d = [] then (dictSet [] "null" (OptVal.bool f.null), f)
      else
        let d2 := dictSet d "null" (OptVal.bool f.null)
        (d2, { f with options := some d2 })

/-! ## Spec-side definitions (for refinement comparisons) -/

/-- Written from the spec wording of claim C1: strip one leading
descending marker. -/
def stripDescMarker (f : String) : String :=
  if charsStart ['-'] f.data then ⟨f.data.drop 1⟩ else f

/-- Written from the spec wording of claim C1: the allowed sort names,
the union of declared ordering and filtering names with the descending
marker stripped, lower-cased for a case-insensitive membership test. -/
def claimAllowed (extra : ModelExtra) : List String :=
  (extra.ordering ++ extra.filtering).map (fun f => pyLower (stripDescMarker f))

/-- Written from the spec wording of claim C1: keep the requested fields
whose marker-stripped name belongs case-insensitively to the allowed
set, preserving order; fall back to the declared ordering when none
survive. -/
def claimResolveOrdering (extra : ModelExtra) (query : List String) : List String :=
  let kept := query.filter (fun f => (claimAllowed extra).contains (pyLower (stripDescMarker f)))
  if kept ≠ [] then kept else extra.ordering

/-- The amended resolution rule for C1: membership removes all dashes
from the requested name and compares against the declared names with
dashes removed, whitespace stripped and lower-cased. -/
def amendedResolveOrdering (extra : ModelExtra) (query : List String) : List String :=
  let allowed := (extra.ordering ++ extra.filtering).map
    (fun f => pyLower (pyStrip (pyReplace f "-" "")))
  let kept := query.filter (fun f => allowed.contains (pyReplace f "-" ""))
  if kept ≠ [] then kept else extra.ordering

/-! ## Helper lemmas -/

theorem strdata_append (s t : String) : (s ++ t).data = s.data ++ t.data := rfl

theorem strLen (s : String) : s.length = s.data.length := rfl

theorem strLen_mk (l : List Char) : (⟨l⟩ : String).length = l.length := rfl

theorem strLeB_total : ∀ a b : List Char, strLeB a b = true ∨ strLeB b a = true := by
  intro a
  induction a with
  | nil => intro b; left; rfl
  | cons x xs ih =>
    intro b
    cases b with
    | nil => right; rfl
    | cons y ys =>
      by_cases hxy : x = y
      · subst hxy
        rcases ih ys with h | h
        · left; rw [strLeB, if_pos rfl]; exact h
        · right; rw [strLeB, if_pos rfl]; exact h
      · rcases lt_or_gt_of_ne hxy with h | h
        · left; rw [strLeB, if_neg hxy]; exact decide_eq_true h
        · right; rw [strLeB, if_neg (fun e => hxy e.symm)]; exact decide_eq_true h

theorem strLeB_trans :
    ∀ a b c : List Char, strLeB a b = true → strLeB b c = true → strLeB a c = true := by
  intro a
  induction a with
  | nil => intro b c _ _; rfl
  | cons x xs ih =>
    intro b c h1 h2
    cases b with
    | nil => rw [strLeB] at h1; exact absurd h1 (by simp)
    | cons y ys =>
      cases c with
      | nil => rw [strLeB] at h2; exact absurd h2 (by simp)
      | cons z zs =>
        by_cases hxy : x = y
        · subst hxy
          rw [strLeB, if_pos rfl] at h1
          by_cases hxz : x = z
          · subst hxz
            rw [strLeB, if_pos rfl] at h2 ⊢
            exact ih ys zs h1 h2
          · rw [strLeB, if_neg hxz] at h2 ⊢
            exact h2
        · rw [strLeB, if_neg hxy] at h1
          have hlt1 : x < y := of_decide_eq_true h1
          by_cases hyz : y = z
          · subst hyz
            rw [strLeB, if_neg hxy]
            exact decide_eq_true hlt1
          · rw [strLeB, if_neg hyz] at h2
            have hlt2 : y < z := of_decide_eq_true h2
            have hlt : x < z := lt_trans hlt1 hlt2
            rw [strLeB, if_neg (ne_of_lt hlt)]
            exact decide_eq_true hlt

theorem strLeB_antisymm :
    ∀ a b : List Char, strLeB a b = true → strLeB b a = true → a = b := by
  intro a
  induction a with
  | nil =>
    intro b _ h2
    cases b with
    | nil => rfl
    | cons y ys => rw [strLeB] at h2; exact absurd h2 (by simp)
  | cons x xs ih =>
    intro b h1 h2
    cases b with
    | nil => rw [strLeB] at h1; exact absurd h1 (by simp)
    | cons y ys =>
      by_cases hxy : x = y
      · subst hxy
        rw [strLeB, if_pos rfl] at h1 h2
        rw [ih ys h1 h2]
      · rw [strLeB, if_neg hxy] at h1
        rw [strLeB, if_neg (fun e => hxy e.symm)] at h2
        exact absurd (lt_trans (of_decide_eq_true h1) (of_decide_eq_true h2)) (lt_irrefl x)

instance : IsTotal String pyLe := ⟨fun s t => strLeB_total s.data t.data⟩

instance : IsTrans String pyLe :=
  ⟨fun a b c h1 h2 => strLeB_trans a.data b.data c.data h1 h2⟩

instance : IsAntisymm String pyLe :=
  ⟨fun a b h1 h2 => String.ext (strLeB_antisymm a.data b.data h1 h2)⟩

/-- Python `sorted` is invariant under permutation of its input. -/
theorem pySort_perm_eq {l1 l2 : List String} (h : l1.Perm l2) : pySort l1 = pySort l2 :=
  List.eq_of_perm_of_sorted
    ((List.perm_insertionSort pyLe l1).trans (h.trans (List.perm_insertionSort pyLe l2).symm))
    (List.sorted_insertionSort pyLe l1) (List.sorted_insertionSort pyLe l2)

/-- Fact: `List.all` only depends on the multiset of elements. -/
theorem all_perm {α : Type} (p : α → Bool) {l1 l2 : List α} (h : l1.Perm l2) :
    l1.all p = l2.all p := by
  induction h with
  | nil => rfl
  | cons x _ ih => simp [List.all_cons, ih]
  | swap x y l =>
      simp only [List.all_cons]
      rw [← Bool.and_assoc, Bool.and_comm (p y) (p x), Bool.and_assoc]
  | trans _ _ ih1 ih2 => exact ih1.trans ih2

/-- The search predicate only depends on the token set. -/
theorem searchFilterB_perm {t1 t2 : List String} (h : t1.Perm t2) (r : Row) :
    searchFilterB t1 r = searchFilterB t2 r := by
  cases t1 with
  | nil =>
    have : t2 = [] := h.symm.eq_nil
    subst this; rfl
  | cons a as =>
    cases t2 with
    | nil => exact absurd h.eq_nil (by simp)
    | cons b bs =>
      rw [searchFilterB, searchFilterB]
      cases r.search_data with
      | none => rfl
      | some doc => exact all_perm _ h

theorem bytesHex_length : ∀ l : List Nat, (bytesHex l).length = 2 * l.length := by
  intro l
  induction l with
  | nil => rfl
  | cons b rest ih =>
      simp [bytesHex, ih]
      omega

theorem md5Bytes_length (msg : List Nat) : (md5Bytes msg).length = 16 := by
  unfold md5Bytes
  simp [wordLE]

theorem md5hex_length (s : String) : (md5hex s).length = 32 := by
  show (bytesHex (md5Bytes (strBytes s))).length = 32
  rw [bytesHex_length, md5Bytes_length]

theorem pyTakeStr_length_le (n : Nat) (s : String) : (pyTakeStr n s).length ≤ n := by
  show (s.data.take n).length ≤ n
  simp

theorem pyTakeRight_length (n : Nat) (s : String) :
    (pyTakeRight n s).length = s.length - (s.length - n) := by
  show (s.data.drop (s.data.length - n)).length = s.data.length - (s.data.length - n)
  simp

theorem replChars_empty_length_le (pat : List Char) :
    ∀ (fuel : Nat) (l : List Char), (replChars fuel pat [] l).length ≤ l.length := by
  intro fuel
  induction fuel with
  | zero => intro l; rw [replChars]
  | succ n ih =>
    intro l
    cases l with
    | nil => rw [replChars]
    | cons c cs =>
      rw [replChars]
      by_cases h : charsStart pat (c :: cs) = true
      · rw [if_pos h]
        have h1 := ih ((c :: cs).drop pat.length)
        have h2 : ((c :: cs).drop pat.length).length ≤ (c :: cs).length := by
          simp
        simpa using le_trans h1 h2
      · rw [if_neg h]
        simpa using ih cs

theorem pyReplace_empty_length_le (s pat : String) : (pyReplace s pat "").length ≤ s.length := by
  show (replChars s.data.length pat.data [] s.data).length ≤ s.data.length
  exact replChars_empty_length_le pat.data s.data.length s.data

/-- Lengths of the pieces of `make_index_name`: the generated name is at
most 30 characters. -/
theorem make_index_name_length_le (tablename index_type : String) (fields : List String) :
    (make_index_name tablename index_type fields).length ≤ 30 := by
  unfold make_index_name
  rw [String.length_append, String.length_append, String.length_append, String.length_append]
  have h1 := pyTakeStr_length_le 12 (pyReplace (pyReplace tablename "data_" "") "-" "")
  have h2 := pyTakeStr_length_le 1 index_type
  have h3 := pyTakeRight_length 12
    (md5hex (tablename ++ " " ++ index_type ++ " " ++ pyJoin ", " (pySort fields)))
  rw [md5hex_length] at h3
  have h4 : ("idx_" : String).length = 4 := rfl
  have h5 : ("_" : String).length = 1 := rfl
  omega

/-- Evaluating the `filtering` loop of `Table.get_model`: folding the
skip-or-append step over the filtering list appends one single-field
index per kept entry. -/
theorem foldl_skip_append (ordering : List String) (g : String → IndexSpec) :
    ∀ (l : List String) (init : List IndexSpec),
      l.foldl (fun acc f => if ordering = [f] then acc else acc ++ [g f]) init
        = init ++ (l.filter (fun f => ordering ≠ [f])).map g := by
  intro l
  induction l with
  | nil => intro init; simp
  | cons f t ih =>
    intro init
    by_cases h : ordering = [f]
    · rw [List.foldl_cons, if_pos h, ih, List.filter_cons]
      simp [h]
    · rw [List.foldl_cons, if_neg h, ih, List.filter_cons]
      simp [h]

theorem filter_ne_of_lookup_none {β : Type} :
    ∀ (qs : List (String × β)) (k : String), List.lookup k qs = none →
      qs.filter (fun p => p.1 ≠ k) = qs := by
  intro qs k h
  induction qs with
  | nil => rfl
  | cons p t ih =>
    rw [List.lookup] at h
    cases hpk : k == p.1 with
    | true => rw [hpk] at h; exact absurd h (by simp)
    | false =>
      rw [hpk] at h
      have hne : p.1 ≠ k := fun e => by
        rw [e] at hpk
        simp at hpk
      rw [List.filter_cons, if_pos (by simpa using hne), ih h]

theorem qdPop_snd (k : String) (dflt : List String) (qs : List (String × List String)) :
    (qdPop k dflt qs).2 = qs.filter (fun p => p.1 ≠ k) := by
  unfold qdPop
  cases h : List.lookup k qs with
  | some vs => rfl
  | none => exact (filter_ne_of_lookup_none qs k h).symm

theorem lookup_filter_ne {β : Type} (id tid : Nat) (h : id ≠ tid) :
    ∀ reg : List (Nat × β),
      List.lookup id (reg.filter (fun p => p.1 ≠ tid)) = List.lookup id reg := by
  intro reg
  induction reg with
  | nil => rfl
  | cons p t ih =>
    by_cases hp : p.1 = tid
    · have hbe : (id == p.1) = false := by
        rw [hp]
        exact beq_eq_false_iff_ne.mpr h
      rw [List.filter_cons, if_neg (by simpa using hp), List.lookup, hbe, ih]
    · rw [List.filter_cons, if_pos (by simpa using hp), List.lookup, List.lookup]
      cases hpi : id == p.1 with
      | true => rfl
      | false => exact ih

theorem contains_dedup_map (l : List String) (g : String → String) (x : String) :
    (((l.dedup).map g).contains x) = ((l.map g).contains x) := by
  rw [Bool.eq_iff_iff]
  constructor
  · intro h
    rcases List.mem_map.mp (List.elem_iff.mp h) with ⟨y, hy, hxy⟩
    exact List.elem_iff.mpr (List.mem_map.mpr ⟨y, List.mem_dedup.mp hy, hxy⟩)
  · intro h
    rcases List.mem_map.mp (List.elem_iff.mp h) with ⟨y, hy, hxy⟩
    exact List.elem_iff.mpr (List.mem_map.mpr ⟨y, List.mem_dedup.mpr hy, hxy⟩)

theorem lookup_map_set (k : String) (v : OptVal) :
    ∀ d : List (String × OptVal), d.any (fun p => p.1 = k) = true →
      List.lookup k (d.map (fun p => if p.1 = k then (k, v) else p)) = some v := by
  intro d
  induction d with
  | nil => intro h; simp at h
  | cons p t ih =>
    intro h
    rw [List.map_cons]
    by_cases hp : p.1 = k
    · rw [if_pos hp, List.lookup]
      simp
    · rw [if_neg hp, List.lookup]
      have hbe : (k == p.1) = false := beq_eq_false_iff_ne.mpr (fun e => hp e.symm)
      rw [hbe]
      apply ih
      simpa [List.any_cons, hp] using h

theorem lookup_append_kv (k : String) (v : OptVal) :
    ∀ d : List (String × OptVal), d.any (fun p => p.1 = k) = false →
      List.lookup k (d ++ [(k, v)]) = some v := by
  intro d
  induction d with
  | nil =>
    intro _
    show List.lookup k [(k, v)] = some v
    rw [List.lookup]
    simp
  | cons p t ih =>
    intro h
    rw [List.any_cons] at h
    rcases Bool.or_eq_false_iff.mp h with ⟨h1, h2⟩
    have hp : p.1 ≠ k := of_decide_eq_false h1
    rw [List.cons_append, List.lookup]
    have hbe : (k == p.1) = false := beq_eq_false_iff_ne.mpr (fun e => hp e.symm)
    rw [hbe]
    exact ih h2

theorem lookup_dictSet_self (d : List (String × OptVal)) (k : String) (v : OptVal) :
    List.lookup k (dictSet d k v) = some v := by
  unfold dictSet
  by_cases h : d.any (fun p => p.1 = k) = true
  · rw [if_pos h]
    exact lookup_map_set k v d h
  · rw [if_neg h]
    refine lookup_append_kv k v d ?_
    cases hb : d.any (fun p => p.1 = k) with
    | true => exact absurd hb h
    | false => rfl

/-! ## Claim theorems -/

/-- C3: `count()` is memoized per query instance — a second call returns
the identical value, leaves the memo unchanged and performs no further
data access.  With no filtering predicate, a planner-statistics failure
falls back to the exact count without surfacing, and a planner success
returns the statistics value; with a filtering predicate the exact count
is always computed. -/
theorem c3_count_memoized (env : CountEnv) (q : CQuery) :
    ((countM env ((countM env q).2.1)).1 = (countM env q).1
      ∧ (countM env ((countM env q).2.1)).2.1 = (countM env q).2.1
      ∧ (countM env ((countM env q).2.1)).2.2 = 0)
    ∧ (q.cachedCount = none → q.hasWhere = false → env.plannerStats = none →
        (countM env q).1 = env.exactCount)
    ∧ (q.cachedCount = none → q.hasWhere = true →
        (countM env q).1 = env.exactCount)
    ∧ (∀ n : Int, q.cachedCount = none → q.hasWhere = false →
        env.plannerStats = some n → (countM env q).1 = n) := by
  rcases q with ⟨hw, cc⟩
  rcases cc with _ | c
  · cases hw <;> cases hpl : env.plannerStats <;> simp [countM, hpl]
  · cases hw <;> simp [countM]

/-- C3 witness: on a concrete unfiltered query with planner statistics
unavailable, `count()` falls back to the exact count `7`. -/
theorem c3_count_memoized_witness :
    (countM ⟨none, 7⟩ ⟨false, none⟩).1 = 7 :=
  (c3_count_memoized ⟨none, 7⟩ ⟨false, none⟩).2.1 rfl rfl rfl

/-- C7: `create_table` with `create_indexes=false` creates the table
with no declared indexes; in every execution the in-memory index list is
restored afterwards; and the creation outcome — success or failure — is
propagated unchanged from the schema editor. -/
theorem c7_create_table (α : Type) (createModel : List α → Except String Unit)
    (metaIndexes : List α) (b : Bool) :
    (create_table b createModel metaIndexes).finalIndexes = metaIndexes
    ∧ (create_table false createModel metaIndexes).passedIndexes = []
    ∧ (create_table true createModel metaIndexes).passedIndexes = metaIndexes
    ∧ (create_table b createModel metaIndexes).outcome
        = createModel ((create_table b createModel metaIndexes).passedIndexes) := by
  cases b <;> simp [create_table]

/-- C9: `get_model` is memoized by `Table.id` in the process-wide
registry: after a first cached call, a second cached call returns
exactly the model of the first call and leaves the registry untouched; the
registered entry for `t.id` is that model; `cache=False` forces a fresh
synthesis; and no other registry entry is ever changed or evicted. -/
theorem c9_model_cache (t : TableMeta) (reg : List (Nat × DynModel)) :
    get_model true t ((get_model true t reg).2)
        = ((get_model true t reg).1, (get_model true t reg).2)
    ∧ List.lookup t.id (get_model true t reg).2 = some (get_model true t reg).1
    ∧ (get_model false t reg).1 = synthesizeModel t
    ∧ ∀ id : Nat, List.lookup id (get_model true t reg).2
        = if id = t.id then some ((get_model true t reg).1) else List.lookup id reg := by
  cases h : List.lookup t.id reg with
  | some m =>
    have e : get_model true t reg = (m, reg) := by simp [get_model, h]
    rw [e]
    refine ⟨by simp [get_model, h], h, by simp [get_model], ?_⟩
    intro id
    by_cases hid : id = t.id
    · subst hid
      rw [if_pos rfl]
      exact h
    · rw [if_neg hid]
  | none =>
    have hl : List.lookup t.id (regSet t.id (synthesizeModel t) reg) = some (synthesizeModel t) := by
      rw [regSet, List.lookup]
      simp
    have e : get_model true t reg = (synthesizeModel t, regSet t.id (synthesizeModel t) reg) := by
      simp [get_model, h]
    rw [e]
    refine ⟨by simp [get_model, hl], hl, by simp [get_model], ?_⟩
    intro id
    by_cases hid : id = t.id
    · subst hid
      rw [if_pos rfl]
      exact hl
    · rw [if_neg hid, regSet, List.lookup]
      have hbe : (id == t.id) = false := beq_eq_false_iff_ne.mpr hid
      rw [hbe]
      exact lookup_filter_ne id t.id hid reg

/-- C10 counterexample: a `Field` whose stored options mapping is
present but empty.  `kwargs = self.options or {}` then evaluates to a
fresh dict, the stored mapping is not aliased, and reading
`field_class` leaves the field row completely unchanged: no `null` key
is observable afterwards, contrary to the claim which asserts the
mutation for every present (non-null) mapping. -/
theorem c10_counterexample :
    (⟨true, some [], "string"⟩ : FieldMeta).options ≠ none
    ∧ (field_class_effect ⟨true, some [], "string"⟩).2 = ⟨true, some [], "string"⟩
    ∧ List.lookup "null" (((field_class_effect ⟨true, some [], "string"⟩).2.options).getD [])
        = none := by
  exact ⟨by decide, rfl, rfl⟩

/-- C10 amended: for every `Field` whose stored options mapping is
present and non-empty, reading `field_class` inserts `"null"` (set to
the nullability flag) into that same stored mapping, the kwargs passed
to the field constructor are that mutated mapping, and a subsequent
read of the options observes the added key. -/
theorem c10_field_options_amended (f : FieldMeta) (d : List (String × OptVal))
    (hd : f.options = some d) (hne : d ≠ []) :
    (field_class_effect f).2.options = some (dictSet d "null" (OptVal.bool f.null))
    ∧ List.lookup "null" (((field_class_effect f).2.options).getD [])
        = some (OptVal.bool f.null)
    ∧ (field_class_effect f).1 = dictSet d "null" (OptVal.bool f.null) := by
  rcases f with ⟨nl, opts, ty⟩
  have hd2 : opts = some d := hd
  subst hd2
  refine ⟨by simp [field_class_effect, hne], ?_, by simp [field_class_effect, hne]⟩
  simp only [field_class_effect, if_neg hne, Option.getD_some]
  exact lookup_dictSet_self d "null" (OptVal.bool nl)

/-- C10 witness: a concrete field with a non-empty options mapping: the
`null` key is inserted into the stored mapping and observed by a
subsequent read. -/
theorem c10_field_options_amended_witness :
    (field_class_effect ⟨true, some [("max_length", OptVal.int 255)], "string"⟩).2.options
        = some (dictSet [("max_length", OptVal.int 255)] "null" (OptVal.bool true))
    ∧ List.lookup "null"
        (((field_class_effect ⟨true, some [("max_length", OptVal.int 255)], "string"⟩).2.options).getD [])
        = some (OptVal.bool true)
    ∧ (field_class_effect ⟨true, some [("max_length", OptVal.int 255)], "string"⟩).1
        = dictSet [("max_length", OptVal.int 255)] "null" (OptVal.bool true) :=
  c10_field_options_amended _ _ rfl (by decide)

theorem foldl_append_map {α β : Type} (g : β → α) :
    ∀ (l : List β) (init : List α),
      l.foldl (fun acc x => acc ++ [g x]) init = init ++ l.map g := by
  intro l
  induction l with
  | nil => intro init; simp
  | cons x t ih => intro init; simp [ih]

/-- C4: the indexes synthesized by `get_model` are exactly: one
composite btree index over the declared ordering fields (order and
descending markers preserved) when ordering is non-empty, one
single-field btree index per declared filtering field except when the
ordering list equals exactly that one field, and one GIN index over
`search_data` when the search list is non-empty — and nothing else. -/
theorem c4_index_derivation (name : String) (ordering filtering search : List String) :
    model_indexes name ordering filtering search =
      (if ordering = [] then []
       else [⟨make_index_name name "order" ordering, ordering, IndexKind.btree⟩])
      ++ (filtering.filter (fun f => ordering ≠ [f])).map
          (fun f => ⟨make_index_name name "filter" [f], [f], IndexKind.btree⟩)
      ++ (if search = [] then []
          else [⟨make_index_name name "search" ["search_data"],
                 ["search_data"], IndexKind.gin⟩]) := by
  by_cases hf : filtering = [] <;> by_cases ho : ordering = [] <;> by_cases hs : search = [] <;>
    simp [model_indexes, foldl_skip_append, foldl_append_map, hf, ho, hs]

/-- C5 counterexample: two distinct field-name sets whose sorted
comma-space joins coincide receive the identical index name, refuting
the claim that every pair of distinct field sets over the same table
name and kind yields distinct names. -/
theorem c5_counterexample :
    make_index_name "data_t" "order" ["a, b"] = make_index_name "data_t" "order" ["a", "b"]
    ∧ (["a, b"] : List String) ≠ ["a", "b"]
    ∧ ("a" : String) ∈ (["a", "b"] : List String)
    ∧ ("a" : String) ∉ (["a, b"] : List String) := by
  exact ⟨rfl, by decide, by decide, by decide⟩

/-- C5 amended: `make_index_name` is deterministic in the field set
(invariant under reordering of the field list, since the fields are
sorted before hashing) and every generated name is at most the 63
character identifier bound (in fact at most 30); but distinct field
sets are only guaranteed distinct names when their sorted comma-joined
renderings (and hence md5 suffixes) differ. -/
theorem c5_index_name_amended :
    (∀ (tablename index_type : String) (f1 f2 : List String), f1.Perm f2 →
        make_index_name tablename index_type f1 = make_index_name tablename index_type f2)
    ∧ (∀ (tablename index_type : String) (fields : List String),
        (make_index_name tablename index_type fields).length ≤ 63) := by
  constructor
  · intro t k f1 f2 h
    unfold make_index_name
    rw [pySort_perm_eq h]
  · intro t k f
    exact le_trans (make_index_name_length_le t k f) (by omega)

/-- C5 witness: a concrete permuted pair receives the same name, and the
generated name respects the identifier bound. -/
theorem c5_index_name_amended_witness :
    make_index_name "data_tab" "order" ["b", "a"] = make_index_name "data_tab" "order" ["a", "b"]
    ∧ (make_index_name "data_tab" "order" ["a", "b"]).length ≤ 63 :=
  ⟨c5_index_name_amended.1 "data_tab" "order" ["b", "a"] ["a", "b"] (by decide),
   c5_index_name_amended.2 "data_tab" "order" ["a", "b"]⟩

/-- C6 counterexample: a 1-character dataset slug and a 60-character
table name — both within their declared maximum lengths of 50 and 255 —
produce a physical table name of 67 characters, exceeding the 63
character database identifier bound. -/
theorem c6_counterexample :
    ("d" : String).length ≤ 50
    ∧ (⟨List.replicate 60 'a'⟩ : String).length ≤ 255
    ∧ 63 < (db_table "d" ⟨List.replicate 60 'a'⟩).length := by
  exact ⟨by decide, by decide, by decide⟩

/-- C6 amended: the physical table name is deterministically
`"data_" ++ slug-without-dashes ++ "_" ++ name-without-underscores`, so
its length is 6 plus the lengths of the two stripped components; it
stays within the 63 character identifier bound exactly when the
stripped components total at most 57 characters — which the declared
maximum column lengths (50 and 255) do not guarantee; the general bound
under those maxima is 311. -/
theorem c6_db_table_amended (slug name : String) :
    (db_table slug name).length
        = 6 + (pyReplace slug "-" "").length + (pyReplace name "_" "").length
    ∧ ((pyReplace slug "-" "").length + (pyReplace name "_" "").length ≤ 57 →
        (db_table slug name).length ≤ 63)
    ∧ (slug.length ≤ 50 → name.length ≤ 255 → (db_table slug name).length ≤ 311) := by
  have hlen : (db_table slug name).length
      = 6 + (pyReplace slug "-" "").length + (pyReplace name "_" "").length := by
    unfold db_table
    rw [String.length_append, String.length_append, String.length_append]
    have h4 : ("data_" : String).length = 5 := rfl
    have h5 : ("_" : String).length = 1 := rfl
    omega
  refine ⟨hlen, fun h => by omega, fun h1 h2 => ?_⟩
  have b1 := pyReplace_empty_length_le slug "-"
  have b2 := pyReplace_empty_length_le name "_"
  omega

/-- C6 witness: a concrete slug and table name within the conditional
bound stay within the identifier limit. -/
theorem c6_db_table_amended_witness :
    (db_table "mydataset" "mytable").length ≤ 63 :=
  (c6_db_table_amended "mydataset" "mytable").2.1 (by decide)

/-- C1 counterexample: the requested field `na-me` against a type whose
allowed names are exactly `name`.  The membership test of the claim (leading
descending marker stripped, case-insensitive) rejects it, so the claim
predicts a fallback to the declared ordering `["name"]`; the code strips
every dash before the membership test, accepts `na-me`, and orders by it
verbatim. -/
theorem c1_counterexample :
    parseOrderBy "na-me" = ["na-me"]
    ∧ claimResolveOrdering ⟨["name"], [], []⟩ ["na-me"] = ["name"]
    ∧ apply_ordering ⟨["name"], [], []⟩ [] ["na-me"] = ["na-me"]
    ∧ (["na-me"] : List String) ≠ ["name"] := by
  exact ⟨by decide, by decide, by decide, by decide⟩

/-- C1 amended: the query builder keeps exactly those requested fields
whose name with every dash removed occurs among the declared ordering
and filtering names (themselves dash-stripped, whitespace-trimmed and
lower-cased; the requested tokens are trimmed and lower-cased during
querystring parsing), preserving the requested order and appending to
the current ordering; if none survive, the declared default ordering is
appended instead (nothing when it is empty).  In particular
`order-by=-name,invalidfield` against a type allowing `name` but not
`invalidfield` orders by `[-name]` only. -/
theorem c1_ordering_resolution_amended :
    (∀ (extra : ModelExtra) (current query : List String),
        apply_ordering extra current query = current ++ amendedResolveOrdering extra query)
    ∧ apply_ordering ⟨["name"], ["age"], []⟩ [] (parseOrderBy "-name,invalidfield")
        = ["-name"] := by
  constructor
  · intro extra current query
    have hk : query.filter
          (fun field => (clean_allowed extra).contains (pyReplace field "-" ""))
        = query.filter (fun f =>
            ((extra.ordering ++ extra.filtering).map
              (fun f2 => pyLower (pyStrip (pyReplace f2 "-" "")))).contains
              (pyReplace f "-" "")) := by
      apply List.filter_congr
      intro a _
      exact contains_dedup_map (extra.ordering ++ extra.filtering) _ _
    simp only [apply_ordering, amendedResolveOrdering]
    rw [hk]
    generalize query.filter (fun f =>
        ((extra.ordering ++ extra.filtering).map
          (fun f2 => pyLower (pyStrip (pyReplace f2 "-" "")))).contains
          (pyReplace f "-" "")) = K
    by_cases hkept : K = []
    · subst hkept
      by_cases hord : extra.ordering = []
      · simp [hord]
      · simp [hord]
    · simp [hkept]
  · decide

/-- C2: for a non-empty search string against a type declaring search
fields, `search` filters the rows with the conjunctive predicate over
the deduplicated whitespace tokens and appends `-search_rank` to the
existing ordering instead of replacing it; two search strings with the
same token set select the identical row set. -/
theorem c2_search_token_set (st : QSState) (s1 s2 : String) (h1 : s1 ≠ "") (h2 : s2 ≠ "")
    (hs : st.extra.search ≠ []) (hp : ((tokensOf s1).dedup).Perm ((tokensOf s2).dedup)) :
    (searchQS s1 st).rows = (searchQS s2 st).rows
    ∧ (searchQS s1 st).ordering = st.ordering ++ ["-search_rank"]
    ∧ (searchQS s2 st).ordering = st.ordering ++ ["-search_rank"]
    ∧ (searchQS s1 st).rows
        = st.rows.filter (fun r => searchFilterB (tokensOf s1).dedup r) := by
  have e1 : searchQS s1 st
      = { st with
            rows := st.rows.filter (fun r => searchFilterB (tokensOf s1).dedup r)
            ordering := st.ordering ++ ["-search_rank"] } := by
    rw [searchQS, if_pos ⟨h1, hs⟩]
  have e2 : searchQS s2 st
      = { st with
            rows := st.rows.filter (fun r => searchFilterB (tokensOf s2).dedup r)
            ordering := st.ordering ++ ["-search_rank"] } := by
    rw [searchQS, if_pos ⟨h2, hs⟩]
  have hf : (fun r => searchFilterB (tokensOf s1).dedup r)
      = (fun r => searchFilterB (tokensOf s2).dedup r) :=
    funext (fun r => searchFilterB_perm hp r)
  rw [e1, e2, hf]
  exact ⟨rfl, rfl, rfl, rfl⟩

/-- C2 witness: `"foo bar"` and `"bar foo"` select the identical row set
on a concrete corpus. -/
theorem c2_search_token_set_witness :
    (searchQS "foo bar"
        ⟨⟨[], [], ["name"]⟩, [⟨some ["foo", "bar"]⟩, ⟨some ["bar"]⟩, ⟨none⟩], []⟩).rows
      = (searchQS "bar foo"
        ⟨⟨[], [], ["name"]⟩, [⟨some ["foo", "bar"]⟩, ⟨some ["bar"]⟩, ⟨none⟩], []⟩).rows :=
  (c2_search_token_set _ "foo bar" "bar foo" (by decide) (by decide) (by decide)
    (by decide)).1

/-- C8: `filter_by_querystring` pops `order-by` and `search` before
filter processing, so the dict handed to the filter processor is
exactly the remaining entries with non-empty values: it never contains
the keys `order-by` or `search` (whatever the record type declares) and
never contains an entry with an empty value. -/
theorem c8_querystring_keys (st : QSState) (qs : List (String × List String)) :
    (filter_by_querystring st qs).2
      = (qdItems ((qs.filter (fun p => p.1 ≠ "order-by")).filter
          (fun p => p.1 ≠ "search"))).filter (fun kv => kv.2 ≠ "")
    ∧ ((filter_by_querystring st qs).2.all
        (fun kv => kv.1 != "order-by" && kv.1 != "search" && kv.2 != "")) = true := by
  have hfst : (filter_by_querystring st qs).2
      = (qdItems ((qs.filter (fun p => p.1 ≠ "order-by")).filter
          (fun p => p.1 ≠ "search"))).filter (fun kv => kv.2 ≠ "") := by
    simp only [filter_by_querystring, qdPop_snd]
  refine ⟨hfst, ?_⟩
  rw [hfst, List.all_eq_true]
  intro kv hkv
  rcases List.mem_filter.mp hkv with ⟨hin, hval⟩
  rcases List.mem_filterMap.mp hin with ⟨p, hp, heq⟩
  rcases List.mem_filter.mp hp with ⟨hp2, hnsearch⟩
  rcases List.mem_filter.mp hp2 with ⟨_, hnorder⟩
  cases hlast : p.2.getLast? with
  | none =>
      rw [hlast] at heq
      exact absurd heq (by simp)
  | some v =>
      rw [hlast] at heq
      have hkv1 : (p.1, v) = kv := by simpa using heq
      subst hkv1
      have hno : p.1 ≠ "order-by" := by simpa using hnorder
      have hns : p.1 ≠ "search" := by simpa using hnsearch
      have hv : v ≠ "" := by simpa using hval
      simp [hno, hns, hv]
